import Mathlib

/-!
# Verification of the snapshot history store (`src/store/snapshot.ts`)

Shallow embedding of the undo/redo snapshot-history subsystem of PPTist.
The persistent Dexie table `db.snapshots` is modelled as a list of records
kept in ascending id order (ids are assigned by an auto-incrementing
counter, so append preserves the order, and deletion keeps it).  The pinia
stores involved (`useSnapshotStore`, `useSlidesStore`, `useMainStore`) are
flattened into one `AppState` record: `snapshotCursor`/`snapshotLength`
come from the snapshot store, `slideIndex`/`slides` from the slides store,
and `activeElementIdList` from the main store.

Numbers that can be negative in the source (`snapshotCursor` starts at
`-1`; the clamped slide index can be `-1` for an empty deck) are `Int`;
counts (`snapshotLength`, ids) are `Nat`.
-/

namespace PPTist

/-- One row of the `snapshots` table: auto-incremented primary key `id`,
the captured current-slide index (`index` in the source), and the captured
deck (`slides`).  Slide objects are opaque, hence the type parameter. -/
structure DbRecord (α : Type) where
  id : Nat
  index : Int
  slides : List α
deriving DecidableEq, Repr

/-- The combined state of the snapshot store, the slides store, the main
store, and the persistent `snapshots` table.  `db` is the table content in
ascending id order; `nextId` is Dexie's auto-increment counter. -/
structure AppState (α : Type) where
  db : List (DbRecord α)
  nextId : Nat
  snapshotCursor : Int
  snapshotLength : Nat
  slideIndex : Int
  slides : List α
  activeElementIdList : List Nat
deriving DecidableEq, Repr

variable {α : Type}

/-- `db.snapshots.orderBy('id').keys()` — the table is kept in id order,
so the ordered key listing is just the list of ids. -/
def dbKeys (db : List (DbRecord α)) : List Nat := db.map (·.id)

/-- `db.snapshots.update(key, { index })` — patch the `index` field of the
record with primary key `key` (ids are unique, so at most one row). -/
def dbUpdateIndex (db : List (DbRecord α)) (key : Nat) (newIndex : Int) :
    List (DbRecord α) :=
  db.map (fun r => if r.id = key then { r with index := newIndex } else r)

/-- `db.snapshots.bulkDelete(keys)` — delete every row whose primary key
occurs in `keys` (set semantics: a duplicate key deletes once). -/
def dbBulkDelete (db : List (DbRecord α)) (keys : List Nat) :
    List (DbRecord α) :=
  db.filter (fun r => decide (r.id ∉ keys))

/-- `initSnapshotDatabase`: append one snapshot of the current document and
set cursor `0`, length `1`. -/
def initSnapshotDatabase (s : AppState α) : AppState α :=
  { s with
    db := s.db ++ [⟨s.nextId, s.slideIndex, s.slides⟩]
    nextId := s.nextId + 1
    snapshotCursor := 0
    snapshotLength := 1 }

/-- The capacity limit (`snapshotLengthLimit` in `addSnapshot`). -/
def snapshotLengthLimit : Nat := 20

/-- The branch-truncation keys of `addSnapshot`: if the cursor is not at
the last existing key, all keys strictly after the cursor position
(`allKeys.slice(this.snapshotCursor + 1)`); otherwise none. -/
def truncKeys (s : AppState α) : List Nat :=
  let allKeys := dbKeys s.db
  if 0 ≤ s.snapshotCursor ∧ s.snapshotCursor < (allKeys.length : Int) - 1 then
    allKeys.drop (s.snapshotCursor + 1).toNat
  else []

/-- The provisional snapshot length of `addSnapshot`:
`allKeys.length - needDeleteKeys.length + 1` (before capacity eviction).
`truncKeys` is a suffix of `allKeys`, so the subtraction never underflows
and `Nat` subtraction agrees with the source's exact arithmetic. -/
def provLength (s : AppState α) : Nat :=
  (dbKeys s.db).length - (truncKeys s).length + 1

/-- The final `needDeleteKeys` of `addSnapshot`: the truncation keys, plus
the oldest key `allKeys[0]` when the provisional length exceeds the limit.
The eviction branch guarantees `allKeys` is nonempty there, so the `getD`
default is never used. -/
def needDeleteKeysOf (s : AppState α) : List Nat :=
  if provLength s > snapshotLengthLimit then
    truncKeys s ++ [(dbKeys s.db).getD 0 0]
  else truncKeys s

/-- The final `snapshotLength` computed by `addSnapshot` (after the
capacity-eviction decrement). -/
def newLengthOf (s : AppState α) : Nat :=
  if provLength s > snapshotLengthLimit then provLength s - 1
  else provLength s

/-- `addSnapshot`, following the source step by step: read the ordered
keys; compute the truncation keys; append the new snapshot; compute the
new length and possibly mark the oldest key for eviction; if the new
length is at least 2, patch the `index` field of the record with key
`allKeys[snapshotLength - 2]` to the current slide index; batch-delete the
marked keys; finally set cursor and length.  All key arithmetic uses the
key listing taken at entry, exactly as the source does. -/
def addSnapshot (s : AppState α) : AppState α :=
  let allKeys := dbKeys s.db
  let db1 := s.db ++ [⟨s.nextId, s.slideIndex, s.slides⟩]
  let nL := newLengthOf s
  let db2 :=
    if 2 ≤ nL then dbUpdateIndex db1 (allKeys.getD (nL - 2) 0) s.slideIndex
    else db1
  let db3 := dbBulkDelete db2 (needDeleteKeysOf s)
  { s with
    db := db3
    nextId := s.nextId + 1
    snapshotCursor := (nL : Int) - 1
    snapshotLength := nL }

/-- `unDo`: no-op when the cursor is at (or below) 0; otherwise move the
cursor back one, read the full ordered table, restore that record's slides
with the focus index clamped to the restored deck's last slide, and clear
the active-element selection.  The `none` branch of the lookup is
unreachable whenever the in-memory length matches the table (the source
would fail there destructuring `undefined`). -/
def unDo (s : AppState α) : AppState α :=
  if s.snapshotCursor ≤ 0 then s
  else
    let snapshotCursor := s.snapshotCursor - 1
    match s.db.get? snapshotCursor.toNat with
    | none => s
    | some snapshot =>
      let slideIndex :=
        if snapshot.index > (snapshot.slides.length : Int) - 1 then
          (snapshot.slides.length : Int) - 1
        else snapshot.index
      { s with
        slides := snapshot.slides
        slideIndex := slideIndex
        snapshotCursor := snapshotCursor
        activeElementIdList := [] }

/-- `reDo`: symmetric to `unDo`, guarded by
`snapshotCursor >= snapshotLength - 1`. -/
def reDo (s : AppState α) : AppState α :=
  if (s.snapshotLength : Int) - 1 ≤ s.snapshotCursor then s
  else
    let snapshotCursor := s.snapshotCursor + 1
    match s.db.get? snapshotCursor.toNat with
    | none => s
    | some snapshot =>
      let slideIndex :=
        if snapshot.index > (snapshot.slides.length : Int) - 1 then
          (snapshot.slides.length : Int) - 1
        else snapshot.index
      { s with
        slides := snapshot.slides
        slideIndex := slideIndex
        snapshotCursor := snapshotCursor
        activeElementIdList := [] }

/-- The four public history operations. -/
inductive Op where
  | init
  | record
  | undo
  | redo
deriving DecidableEq, Repr

/-- One history call. -/
def step (s : AppState α) : Op → AppState α
  | .init => initSnapshotDatabase s
  | .record => addSnapshot s
  | .undo => unDo s
  | .redo => reDo s

/-- A finite sequence of history calls. -/
def run (s : AppState α) (ops : List Op) : AppState α :=
  ops.foldl step s

/-- The uninitialized state: empty table, cursor `-1`, length `0`, with
the document model holding `slideIndex`/`slides` and no selection. -/
def initialState (slideIndex : Int) (slides : List α) : AppState α :=
  { db := []
    nextId := 1
    snapshotCursor := -1
    snapshotLength := 0
    slideIndex := slideIndex
    slides := slides
    activeElementIdList := [] }

/-! ## Failure model

Each Dexie call of the history operations may fail (rejected promise).
A `DbFailure` valuation says which calls fail during one history
operation.  A failed call leaves the table untouched and the operation
either rethrows (`await`ed calls) or continues (calls whose promise is
dropped).  The `Except` result carries the state as of the throw: the
in-memory cursor/length are written only at the very end of the source
functions, so an abandoned operation leaves them at their old values,
while table mutations already performed remain. -/

structure DbFailure where
  keysFail : Bool
  addFail : Bool
  updateFail : Bool
  deleteFail : Bool
  readFail : Bool
deriving DecidableEq, Repr

/-- The state carried by an `Except` result of a fallible operation,
whether it succeeded or threw. -/
def exceptState (e : Except (AppState α) (AppState α)) : AppState α :=
  match e with
  | .error s => s
  | .ok s => s

/-- `initSnapshotDatabase` with a fallible table: the single `add` is
`await`ed, so its failure rethrows before any in-memory update. -/
def initSnapshotDatabaseE (f : DbFailure) (s : AppState α) :
    Except (AppState α) (AppState α) :=
  if f.addFail then .error s else .ok (initSnapshotDatabase s)

/-- `addSnapshot` with a fallible table.  The key listing and the `add`
are `await`ed: their failure rethrows with nothing changed.  The
`db.snapshots.update(...)` promise is NOT awaited by the source, so its
failure is dropped and execution continues (the patch simply does not
happen).  The `bulkDelete` is `await`ed: its failure rethrows after the
`add` (and a successful patch) already mutated the table, but before the
cursor/length assignments. -/
def addSnapshotE (f : DbFailure) (s : AppState α) :
    Except (AppState α) (AppState α) :=
  if f.keysFail then .error s
  else if f.addFail then .error s
  else
    let allKeys := dbKeys s.db
    let db1 := s.db ++ [⟨s.nextId, s.slideIndex, s.slides⟩]
    let nL := newLengthOf s
    let db2 :=
      if 2 ≤ nL ∧ f.updateFail = false then
        dbUpdateIndex db1 (allKeys.getD (nL - 2) 0) s.slideIndex
      else db1
    if f.deleteFail then .error { s with db := db2, nextId := s.nextId + 1 }
    else
      .ok { s with
            db := dbBulkDelete db2 (needDeleteKeysOf s)
            nextId := s.nextId + 1
            snapshotCursor := (nL : Int) - 1
            snapshotLength := nL }

/-- `unDo` with a fallible table: the guard runs before the ordered read,
so at the no-op boundary nothing can throw; otherwise a failing
`toArray` rethrows with the state untouched. -/
def unDoE (f : DbFailure) (s : AppState α) :
    Except (AppState α) (AppState α) :=
  if s.snapshotCursor ≤ 0 then .ok s
  else if f.readFail then .error s
  else .ok (unDo s)

/-- `reDo` with a fallible table, symmetric to `unDoE`. -/
def reDoE (f : DbFailure) (s : AppState α) :
    Except (AppState α) (AppState α) :=
  if (s.snapshotLength : Int) - 1 ≤ s.snapshotCursor then .ok s
  else if f.readFail then .error s
  else .ok (reDo s)

/-! ## Invariants used in the inductive proofs -/

/-- Well-formedness of a reachable state: the table keys are distinct and
below the auto-increment counter, the in-memory length equals the table
count, the table respects the capacity limit, and the cursor is `-1` on
an uninitialized (empty) history or a valid position otherwise. -/
def GoodState (s : AppState α) : Prop :=
  (dbKeys s.db).Nodup ∧
  (∀ k ∈ dbKeys s.db, k < s.nextId) ∧
  s.snapshotLength = s.db.length ∧
  s.db.length ≤ snapshotLengthLimit ∧
  ((s.snapshotCursor = -1 ∧ s.db = []) ∨
    (0 ≤ s.snapshotCursor ∧ s.snapshotCursor < (s.db.length : Int)))

/-- The weaker invariant that holds for arbitrary call sequences (even
ones violating `init`'s precondition): the in-memory length respects the
capacity limit, the cursor stays at most `19 = limit - 1`, and a negative
cursor only occurs on an empty table with length `0`. -/
def CapInv (s : AppState α) : Prop :=
  s.snapshotLength ≤ snapshotLengthLimit ∧
  s.snapshotCursor ≤ (snapshotLengthLimit : Int) - 1 ∧
  (s.snapshotCursor < 0 → s.db = [] ∧ s.snapshotLength = 0)

/-- `init` called a second time desynchronizes length from the log; the
documented precondition is that it runs only on an empty history, i.e.
only as the first call of a sequence. -/
abbrev InitOnlyFirst (ops : List Op) : Prop :=
  ∀ op ∈ ops.drop 1, op ≠ Op.init

/-! ## Concrete states used by witnesses and counterexamples -/

/-- A full history at the capacity limit: 20 records with ids `1..20`,
each with focus index `0`, cursor at the last position, current slide
index `5`. -/
def fullHistoryState : AppState Nat :=
  { db := (List.range 20).map (fun i => ⟨i + 1, 0, [0]⟩)
    nextId := 21
    snapshotCursor := 19
    snapshotLength := 20
    slideIndex := 5
    slides := [0, 1]
    activeElementIdList := [] }

/-- History `[A, B, C, D]` (ids `1..4`) with the cursor at `B`. -/
def abcdState : AppState Nat :=
  { db := [⟨1, 0, [0]⟩, ⟨2, 0, [0]⟩, ⟨3, 0, [0]⟩, ⟨4, 0, [0]⟩]
    nextId := 5
    snapshotCursor := 1
    snapshotLength := 4
    slideIndex := 0
    slides := [0]
    activeElementIdList := [] }

/-- A two-record history whose older record stores focus index `7` over a
three-slide deck. -/
def clampState : AppState Nat :=
  { db := [⟨1, 7, [1, 2, 3]⟩, ⟨2, 9, [4, 5]⟩, ⟨3, 0, [9]⟩]
    nextId := 4
    snapshotCursor := 1
    snapshotLength := 3
    slideIndex := 0
    slides := [9]
    activeElementIdList := [4] }

/-- A state as left by a `record` call: cursor at the last position and
the document equal to the newest snapshot's content. -/
def afterRecordState : AppState Nat :=
  { db := [⟨1, 0, [9]⟩, ⟨2, 1, [7, 8]⟩]
    nextId := 3
    snapshotCursor := 1
    snapshotLength := 2
    slideIndex := 1
    slides := [7, 8]
    activeElementIdList := [5] }

/-- A one-record history, used to exercise the fallible operations. -/
def oneRecordState : AppState Nat :=
  { db := [⟨1, 0, [0]⟩]
    nextId := 2
    snapshotCursor := 0
    snapshotLength := 1
    slideIndex := 0
    slides := [0]
    activeElementIdList := [] }

/-! ## Basic lemmas -/

theorem addSnapshot_of_uninit (s : AppState α) (hdb : s.db = [])
    (hc : s.snapshotCursor = -1) :
    addSnapshot s = initSnapshotDatabase s := by
  simp [addSnapshot, initSnapshotDatabase, newLengthOf, provLength, truncKeys,
    needDeleteKeysOf, dbKeys, dbBulkDelete, hdb, hc, snapshotLengthLimit]

theorem dbKeys_length (db : List (DbRecord α)) : (dbKeys db).length = db.length :=
  List.length_map _ _

theorem dbKeys_append (d₁ d₂ : List (DbRecord α)) :
    dbKeys (d₁ ++ d₂) = dbKeys d₁ ++ dbKeys d₂ :=
  List.map_append _ _ _

theorem dbKeys_update (db : List (DbRecord α)) (k : Nat) (i : Int) :
    dbKeys (dbUpdateIndex db k i) = dbKeys db := by
  induction db with
  | nil => rfl
  | cons r rest ih =>
    by_cases h : r.id = k <;>
      simp only [dbKeys, dbUpdateIndex, List.map_cons, if_pos, if_neg, h,
        ite_true, ite_false] at ih ⊢ <;>
      exact congrArg₂ List.cons rfl ih

theorem dbKeys_ite_update (c : Prop) [Decidable c]
    (db : List (DbRecord α)) (k : Nat) (i : Int) :
    dbKeys (if c then dbUpdateIndex db k i else db) = dbKeys db := by
  split
  · exact dbKeys_update db k i
  · rfl

theorem dbKeys_bulkDelete (db : List (DbRecord α)) (ks : List Nat) :
    dbKeys (dbBulkDelete db ks) =
      (dbKeys db).filter (fun a => decide (a ∉ ks)) := by
  induction db with
  | nil => rfl
  | cons r rest ih =>
    by_cases h : r.id ∈ ks
    · have e1 : dbBulkDelete (r :: rest) ks = dbBulkDelete rest ks := by
        unfold dbBulkDelete
        rw [List.filter_cons, if_neg (by simp [h])]
      have e2 : (dbKeys (r :: rest)).filter (fun a => decide (a ∉ ks)) =
          (dbKeys rest).filter (fun a => decide (a ∉ ks)) := by
        unfold dbKeys
        rw [List.map_cons, List.filter_cons, if_neg (by simp [h])]
      rw [e1, e2, ih]
    · have e1 : dbBulkDelete (r :: rest) ks = r :: dbBulkDelete rest ks := by
        unfold dbBulkDelete
        rw [List.filter_cons, if_pos (by simp [h])]
      have e2 : (dbKeys (r :: rest)).filter (fun a => decide (a ∉ ks)) =
          r.id :: (dbKeys rest).filter (fun a => decide (a ∉ ks)) := by
        unfold dbKeys
        rw [List.map_cons, List.filter_cons, if_pos (by simp [h])]
      rw [e1, e2, ← ih]
      rfl

/-- Deleting the keys of a suffix from a duplicate-free key list keeps
exactly the complementary prefix. -/
theorem filter_not_mem_append {t d : List Nat} (h : (t ++ d).Nodup) :
    (t ++ d).filter (fun a => decide (a ∉ d)) = t := by
  rcases List.nodup_append.mp h with ⟨ht, hd, hdisj⟩
  rw [List.filter_append]
  have h1 : t.filter (fun a => decide (a ∉ d)) = t :=
    List.filter_eq_self.mpr (fun a ha => by simpa using fun hm => hdisj ha hm)
  have h2 : d.filter (fun a => decide (a ∉ d)) = [] :=
    List.filter_eq_nil_iff.mpr (fun a ha => by simpa using ha)
  rw [h1, h2, List.append_nil]

theorem filter_not_mem_drop {l : List Nat} (hl : l.Nodup) (m : Nat) :
    l.filter (fun a => decide (a ∉ l.drop m)) = l.take m := by
  have h := filter_not_mem_append (t := l.take m) (d := l.drop m)
    (by rw [List.take_append_drop]; exact hl)
  rwa [List.take_append_drop] at h

theorem filter_not_mem_head {k : Nat} {rest : List Nat}
    (h : (k :: rest).Nodup) :
    (k :: rest).filter (fun a => decide (a ∉ [k])) = rest := by
  rcases List.nodup_cons.mp h with ⟨hk, _⟩
  rw [List.filter_cons, if_neg (by simp)]
  exact List.filter_eq_self.mpr (fun a ha => by
    simp only [decide_eq_true_eq, List.mem_singleton]
    exact fun he => hk (he ▸ ha))

theorem not_mem_of_bound {ks : List Nat} {n a : Nat}
    (hf : ∀ k ∈ ks, k < n) (ha : n ≤ a) : a ∉ ks :=
  fun h => absurd (hf a h) (by omega)

theorem filter_head_append {k0 : Nat} {rest : List Nat} {nid : Nat}
    (hnodup : (k0 :: rest).Nodup) (hnid : nid ∉ [k0]) :
    ((k0 :: rest) ++ [nid]).filter (fun a => decide (a ∉ [k0])) =
      rest ++ [nid] := by
  rw [List.filter_append, filter_not_mem_head hnodup]
  congr 1
  simp only [List.mem_singleton] at hnid
  simp [hnid]

theorem nodup_append_fresh {ks : List Nat} {a : Nat} (h : ks.Nodup)
    (ha : a ∉ ks) : (ks ++ [a]).Nodup := by
  rw [List.nodup_append]
  exact ⟨h, List.nodup_singleton a,
    fun x hx hx' => ha ((List.mem_singleton.mp hx') ▸ hx)⟩

theorem fresh_keys_append {ks sub : List Nat} {nid : Nat} (hsub : sub ⊆ ks)
    (hf : ∀ k ∈ ks, k < nid) : ∀ k ∈ sub ++ [nid], k < nid + 1 := by
  intro k hk
  rcases List.mem_append.mp hk with h | h
  · exact Nat.lt_succ_of_lt (hf k (hsub h))
  · rw [List.mem_singleton.mp h]; omega

/-! ## The shapes `addSnapshot` takes, by case on the cursor position -/

theorem addSnapshot_cursor (s : AppState α) :
    (addSnapshot s).snapshotCursor = (newLengthOf s : Int) - 1 := rfl

theorem addSnapshot_length (s : AppState α) :
    (addSnapshot s).snapshotLength = newLengthOf s := rfl

/-- The surviving keys after `addSnapshot`: the old keys plus the freshly
assigned one, with the marked deletions filtered out. -/
theorem addSnapshot_keys (s : AppState α) :
    dbKeys (addSnapshot s).db =
      (dbKeys s.db ++ [s.nextId]).filter
        (fun a => decide (a ∉ needDeleteKeysOf s)) := by
  simp only [addSnapshot]
  rw [dbKeys_bulkDelete, dbKeys_ite_update, dbKeys_append]
  rfl

theorem truncKeys_of_mid (s : AppState α) (hc0 : 0 ≤ s.snapshotCursor)
    (hlt : s.snapshotCursor < (s.db.length : Int) - 1) :
    truncKeys s = (dbKeys s.db).drop (s.snapshotCursor.toNat + 1) := by
  simp only [truncKeys]
  rw [if_pos ⟨hc0, by rw [dbKeys_length]; exact hlt⟩]
  congr 1
  omega

theorem provLength_of_mid (s : AppState α) (hc0 : 0 ≤ s.snapshotCursor)
    (hlt : s.snapshotCursor < (s.db.length : Int) - 1) :
    provLength s = s.snapshotCursor.toNat + 2 := by
  unfold provLength
  rw [truncKeys_of_mid s hc0 hlt, List.length_drop, dbKeys_length]
  omega

theorem truncKeys_of_last (s : AppState α)
    (hno : ¬(0 ≤ s.snapshotCursor ∧
      s.snapshotCursor < (s.db.length : Int) - 1)) :
    truncKeys s = [] := by
  simp only [truncKeys]
  rw [if_neg]
  intro ⟨h1, h2⟩
  exact hno ⟨h1, by rwa [dbKeys_length] at h2⟩

theorem provLength_of_last (s : AppState α)
    (hno : ¬(0 ≤ s.snapshotCursor ∧
      s.snapshotCursor < (s.db.length : Int) - 1)) :
    provLength s = s.db.length + 1 := by
  unfold provLength
  rw [truncKeys_of_last s hno, dbKeys_length]
  rfl

/-- Branch truncation (no eviction possible under the capacity bound):
`record` at a mid-history cursor marks exactly the keys strictly after
the cursor for deletion, and the surviving keys are the prefix up to the
cursor plus the new key. -/
theorem addSnapshot_mid (s : AppState α)
    (hnodup : (dbKeys s.db).Nodup) (hfresh : ∀ k ∈ dbKeys s.db, k < s.nextId)
    (hcap : s.db.length ≤ snapshotLengthLimit)
    (hc0 : 0 ≤ s.snapshotCursor)
    (hlt : s.snapshotCursor < (s.db.length : Int) - 1) :
    needDeleteKeysOf s = (dbKeys s.db).drop (s.snapshotCursor.toNat + 1) ∧
    newLengthOf s = s.snapshotCursor.toNat + 2 ∧
    dbKeys (addSnapshot s).db =
      (dbKeys s.db).take (s.snapshotCursor.toNat + 1) ++ [s.nextId] := by
  have hp := provLength_of_mid s hc0 hlt
  have hno : ¬ provLength s > snapshotLengthLimit := by
    rw [hp]
    simp only [snapshotLengthLimit] at hcap ⊢
    omega
  have hnd : needDeleteKeysOf s =
      (dbKeys s.db).drop (s.snapshotCursor.toNat + 1) := by
    unfold needDeleteKeysOf
    rw [if_neg hno, truncKeys_of_mid s hc0 hlt]
  have hnl : newLengthOf s = s.snapshotCursor.toNat + 2 := by
    unfold newLengthOf
    rw [if_neg hno, hp]
  refine ⟨hnd, hnl, ?_⟩
  rw [addSnapshot_keys, hnd, List.filter_append, filter_not_mem_drop hnodup]
  have hnid : s.nextId ∉ (dbKeys s.db).drop (s.snapshotCursor.toNat + 1) :=
    fun hmem =>
      not_mem_of_bound hfresh (Nat.le_refl _)
        ((List.drop_sublist _ _).subset hmem)
  rw [show ([s.nextId].filter
      (fun a => decide (a ∉ (dbKeys s.db).drop (s.snapshotCursor.toNat + 1)))) =
      [s.nextId] from by simp [hnid]]

/-- `record` with the cursor at the last existing key and the history
below capacity: nothing is marked for deletion and the new key is
appended. -/
theorem addSnapshot_last (s : AppState α)
    (hno : ¬(0 ≤ s.snapshotCursor ∧
      s.snapshotCursor < (s.db.length : Int) - 1))
    (hcap : s.db.length + 1 ≤ snapshotLengthLimit) :
    needDeleteKeysOf s = [] ∧
    newLengthOf s = s.db.length + 1 ∧
    dbKeys (addSnapshot s).db = dbKeys s.db ++ [s.nextId] := by
  have hp := provLength_of_last s hno
  have hnoev : ¬ provLength s > snapshotLengthLimit := by
    rw [hp]; omega
  have hnd : needDeleteKeysOf s = [] := by
    unfold needDeleteKeysOf
    rw [if_neg hnoev, truncKeys_of_last s hno]
  have hnl : newLengthOf s = s.db.length + 1 := by
    unfold newLengthOf
    rw [if_neg hnoev, hp]
  refine ⟨hnd, hnl, ?_⟩
  rw [addSnapshot_keys, hnd]
  exact List.filter_eq_self.mpr (fun a _ => by simp)

/-- Capacity eviction: `record` with the cursor at the last existing key
and the history at (or beyond) capacity marks exactly the oldest key for
deletion; the surviving keys are the old ones minus the first, plus the
new key. -/
theorem addSnapshot_evict (s : AppState α)
    (hnodup : (dbKeys s.db).Nodup) (hfresh : ∀ k ∈ dbKeys s.db, k < s.nextId)
    (hno : ¬(0 ≤ s.snapshotCursor ∧
      s.snapshotCursor < (s.db.length : Int) - 1))
    (hcap : snapshotLengthLimit < s.db.length + 1) :
    needDeleteKeysOf s = [(dbKeys s.db).getD 0 0] ∧
    newLengthOf s = s.db.length ∧
    dbKeys (addSnapshot s).db = (dbKeys s.db).drop 1 ++ [s.nextId] := by
  have hp := provLength_of_last s hno
  have hev : provLength s > snapshotLengthLimit := by rw [hp]; omega
  have hnd : needDeleteKeysOf s = [(dbKeys s.db).getD 0 0] := by
    unfold needDeleteKeysOf
    rw [if_pos hev, truncKeys_of_last s hno]
    rfl
  have hnl : newLengthOf s = s.db.length := by
    unfold newLengthOf
    rw [if_pos hev, hp]
    omega
  refine ⟨hnd, hnl, ?_⟩
  have hlen0 : 0 < s.db.length := by
    simp only [snapshotLengthLimit] at hcap
    omega
  rw [addSnapshot_keys, hnd]
  cases hk : dbKeys s.db with
  | nil =>
    exfalso
    have := dbKeys_length s.db
    rw [hk] at this
    simp at this
    omega
  | cons k0 rest =>
    have hnodup' : (k0 :: rest).Nodup := hk ▸ hnodup
    have hk0 : k0 ∈ dbKeys s.db := by rw [hk]; exact List.mem_cons_self _ _
    have hnid : s.nextId ∉ [k0] := fun hmem => by
      rw [List.mem_singleton.mp hmem] at hfresh
      exact absurd (hfresh _ hk0) (by omega)
    exact filter_head_append hnodup' hnid

/-! ## Invariant preservation -/

theorem newLengthOf_pos (s : AppState α) : 1 ≤ newLengthOf s := by
  unfold newLengthOf
  split
  · next h =>
    simp only [snapshotLengthLimit] at h
    omega
  · unfold provLength
    omega

theorem goodState_initial (i : Int) (sl : List α) :
    GoodState (initialState i sl) := by
  refine ⟨List.nodup_nil, ?_, rfl, ?_, Or.inl ⟨rfl, rfl⟩⟩
  · intro k hk
    cases hk
  · show 0 ≤ snapshotLengthLimit
    exact Nat.zero_le _

theorem goodState_init_empty (s : AppState α) (hdb : s.db = []) :
    GoodState (initSnapshotDatabase s) := by
  refine ⟨?_, ?_, ?_, ?_, Or.inr ⟨?_, ?_⟩⟩ <;>
    simp [initSnapshotDatabase, dbKeys, hdb, snapshotLengthLimit]

theorem goodState_record (s : AppState α) (h : GoodState s) :
    GoodState (addSnapshot s) := by
  obtain ⟨h1, h2, h3, h4, h5⟩ := h
  rcases h5 with ⟨hc, hdb⟩ | ⟨hc0, hlt⟩
  · rw [addSnapshot_of_uninit s hdb hc]
    exact goodState_init_empty s hdb
  · by_cases hmid : s.snapshotCursor < (s.db.length : Int) - 1
    · obtain ⟨hnd, hnl, hkeys⟩ := addSnapshot_mid s h1 h2 h4 hc0 hmid
      have htn : s.snapshotCursor.toNat + 1 ≤ s.db.length := by omega
      have hsub : (dbKeys s.db).take (s.snapshotCursor.toNat + 1) ⊆ dbKeys s.db :=
        (List.take_sublist _ _).subset
      have hnid : s.nextId ∉ (dbKeys s.db).take (s.snapshotCursor.toNat + 1) :=
        fun hm => absurd (h2 _ (hsub hm)) (by omega)
      have hlen : (addSnapshot s).db.length = s.snapshotCursor.toNat + 2 := by
        rw [← dbKeys_length, hkeys, List.length_append, List.length_take]
        rw [dbKeys_length]
        simp
        omega
      refine ⟨?_, ?_, ?_, ?_, Or.inr ⟨?_, ?_⟩⟩
      · rw [hkeys]
        exact nodup_append_fresh (List.Nodup.sublist (List.take_sublist _ _) h1) hnid
      · rw [hkeys]
        exact fresh_keys_append hsub h2
      · rw [addSnapshot_length, hnl, hlen]
      · rw [hlen]
        simp only [snapshotLengthLimit] at h4 ⊢
        omega
      · rw [addSnapshot_cursor, hnl]
        omega
      · rw [addSnapshot_cursor, hnl, hlen]
        omega
    · have hn1 : 1 ≤ s.db.length := by omega
      by_cases hev : s.db.length + 1 ≤ snapshotLengthLimit
      · obtain ⟨hnd, hnl, hkeys⟩ :=
          addSnapshot_last s (fun hcon => hmid hcon.2) hev
        have hnid : s.nextId ∉ dbKeys s.db :=
          fun hm => absurd (h2 _ hm) (by omega)
        have hlen : (addSnapshot s).db.length = s.db.length + 1 := by
          rw [← dbKeys_length, hkeys, List.length_append, dbKeys_length]
          rfl
        refine ⟨?_, ?_, ?_, ?_, Or.inr ⟨?_, ?_⟩⟩
        · rw [hkeys]
          exact nodup_append_fresh h1 hnid
        · rw [hkeys]
          exact fresh_keys_append (fun a ha => ha) h2
        · rw [addSnapshot_length, hnl, hlen]
        · rw [hlen]
          exact hev
        · rw [addSnapshot_cursor, hnl]
          omega
        · rw [addSnapshot_cursor, hnl, hlen]
          omega
      · obtain ⟨hnd, hnl, hkeys⟩ :=
          addSnapshot_evict s h1 h2 (fun hcon => hmid hcon.2) (by omega)
        have hsub : (dbKeys s.db).drop 1 ⊆ dbKeys s.db :=
          (List.drop_sublist _ _).subset
        have hnid : s.nextId ∉ (dbKeys s.db).drop 1 :=
          fun hm => absurd (h2 _ (hsub hm)) (by omega)
        have hlen : (addSnapshot s).db.length = s.db.length := by
          rw [← dbKeys_length, hkeys, List.length_append, List.length_drop]
          rw [dbKeys_length]
          simp
          omega
        refine ⟨?_, ?_, ?_, ?_, Or.inr ⟨?_, ?_⟩⟩
        · rw [hkeys]
          exact nodup_append_fresh (List.Nodup.sublist (List.drop_sublist _ _) h1) hnid
        · rw [hkeys]
          exact fresh_keys_append hsub h2
        · rw [addSnapshot_length, hnl, hlen]
        · rw [hlen]
          exact h4
        · rw [addSnapshot_cursor, hnl]
          omega
        · rw [addSnapshot_cursor, hnl, hlen]
          omega

theorem goodState_undo (s : AppState α) (h : GoodState s) :
    GoodState (unDo s) := by
  by_cases hc : s.snapshotCursor ≤ 0
  · rw [unDo, if_pos hc]
    exact h
  · rw [unDo, if_neg hc]
    cases hget : s.db.get? (s.snapshotCursor - 1).toNat with
    | none =>
      simp only [hget]
      exact h
    | some snap =>
      simp only [hget]
      obtain ⟨h1, h2, h3, h4, h5⟩ := h
      rcases h5 with ⟨hcc, _⟩ | ⟨hc0, hlt⟩
      · omega
      · refine ⟨h1, h2, h3, h4, Or.inr ⟨?_, ?_⟩⟩
        · show (0 : Int) ≤ s.snapshotCursor - 1
          omega
        · show s.snapshotCursor - 1 < (s.db.length : Int)
          omega

theorem goodState_redo (s : AppState α) (h : GoodState s) :
    GoodState (reDo s) := by
  by_cases hc : (s.snapshotLength : Int) - 1 ≤ s.snapshotCursor
  · rw [reDo, if_pos hc]
    exact h
  · rw [reDo, if_neg hc]
    cases hget : s.db.get? (s.snapshotCursor + 1).toNat with
    | none =>
      simp only [hget]
      exact h
    | some snap =>
      simp only [hget]
      obtain ⟨h1, h2, h3, h4, h5⟩ := h
      rcases h5 with ⟨hcc, hdb⟩ | ⟨hc0, hlt⟩
      · rw [hdb] at hget
        cases hget
      · refine ⟨h1, h2, h3, h4, Or.inr ⟨?_, ?_⟩⟩
        · show (0 : Int) ≤ s.snapshotCursor + 1
          omega
        · show s.snapshotCursor + 1 < (s.db.length : Int)
          omega

theorem goodState_run_noinit (s : AppState α) (h : GoodState s)
    (ops : List Op) (hops : ∀ op ∈ ops, op ≠ Op.init) :
    GoodState (run s ops) := by
  induction ops generalizing s with
  | nil => exact h
  | cons op rest ih =>
    have hrest : ∀ o ∈ rest, o ≠ Op.init :=
      fun o ho => hops o (List.mem_cons_of_mem _ ho)
    cases op with
    | init => exact absurd rfl (hops Op.init (List.mem_cons_self _ _))
    | record => exact ih (addSnapshot s) (goodState_record s h) hrest
    | undo => exact ih (unDo s) (goodState_undo s h) hrest
    | redo => exact ih (reDo s) (goodState_redo s h) hrest

theorem goodState_run (i : Int) (sl : List α) (ops : List Op)
    (hops : InitOnlyFirst ops) :
    GoodState (run (initialState i sl) ops) := by
  cases ops with
  | nil => exact goodState_initial i sl
  | cons op rest =>
    have hrest : ∀ o ∈ rest, o ≠ Op.init := fun o ho => hops o (by simpa)
    have h0 : GoodState (step (initialState i sl) op) := by
      cases op with
      | init => exact goodState_init_empty _ rfl
      | record =>
        show GoodState (addSnapshot (initialState i sl))
        rw [addSnapshot_of_uninit _ rfl rfl]
        exact goodState_init_empty _ rfl
      | undo =>
        show GoodState (unDo (initialState i sl))
        rw [unDo, if_pos (show (initialState i sl).snapshotCursor ≤ 0 from by
          show (-1 : Int) ≤ 0
          omega)]
        exact goodState_initial i sl
      | redo =>
        show GoodState (reDo (initialState i sl))
        rw [reDo, if_pos (show ((initialState i sl).snapshotLength : Int) - 1 ≤
            (initialState i sl).snapshotCursor from by
          show ((0 : Nat) : Int) - 1 ≤ (-1 : Int)
          omega)]
        exact goodState_initial i sl
    exact goodState_run_noinit _ h0 rest hrest

theorem capInv_initial (i : Int) (sl : List α) : CapInv (initialState i sl) :=
  ⟨Nat.zero_le _, show (-1 : Int) ≤ (snapshotLengthLimit : Int) - 1 from by
    show (-1 : Int) ≤ ((20 : Nat) : Int) - 1
    omega,
  fun _ => ⟨rfl, rfl⟩⟩

theorem provLength_cursor_neg (s : AppState α) (hc : s.snapshotCursor < 0)
    (hdb : s.db = []) : provLength s = 1 := by
  unfold provLength
  rw [truncKeys_of_last s (fun hcon => by omega), hdb]
  rfl

theorem newLengthOf_le (s : AppState α)
    (hcur : s.snapshotCursor ≤ (snapshotLengthLimit : Int) - 1)
    (hneg : s.snapshotCursor < 0 → s.db = []) :
    newLengthOf s ≤ snapshotLengthLimit := by
  simp only [snapshotLengthLimit] at hcur ⊢
  by_cases hc0 : 0 ≤ s.snapshotCursor
  · by_cases hmid : s.snapshotCursor < (s.db.length : Int) - 1
    · have hp := provLength_of_mid s hc0 hmid
      unfold newLengthOf
      simp only [snapshotLengthLimit]
      split <;> omega
    · have hp := provLength_of_last s (fun hcon => hmid hcon.2)
      have hn : s.db.length ≤ 20 := by omega
      unfold newLengthOf
      simp only [snapshotLengthLimit]
      split <;> omega
  · have hp := provLength_cursor_neg s (by omega) (hneg (by omega))
    unfold newLengthOf
    simp only [snapshotLengthLimit]
    split <;> omega

theorem capInv_record (s : AppState α) (h : CapInv s) :
    CapInv (addSnapshot s) := by
  obtain ⟨h1, h2, h3⟩ := h
  have hle : newLengthOf s ≤ snapshotLengthLimit :=
    newLengthOf_le s h2 (fun hneg => (h3 hneg).1)
  have hpos := newLengthOf_pos s
  refine ⟨?_, ?_, ?_⟩
  · rw [addSnapshot_length]
    exact hle
  · rw [addSnapshot_cursor]
    simp only [snapshotLengthLimit] at hle ⊢
    omega
  · rw [addSnapshot_cursor]
    intro hneg
    omega

theorem capInv_undo (s : AppState α) (h : CapInv s) : CapInv (unDo s) := by
  by_cases hc : s.snapshotCursor ≤ 0
  · rw [unDo, if_pos hc]
    exact h
  · rw [unDo, if_neg hc]
    cases hget : s.db.get? (s.snapshotCursor - 1).toNat with
    | none =>
      simp only [hget]
      exact h
    | some snap =>
      simp only [hget]
      obtain ⟨h1, h2, h3⟩ := h
      refine ⟨h1, ?_, fun hneg => ?_⟩
      · show s.snapshotCursor - 1 ≤ (snapshotLengthLimit : Int) - 1
        omega
      · exfalso
        have hneg' : s.snapshotCursor - 1 < 0 := hneg
        omega

theorem capInv_redo (s : AppState α) (h : CapInv s) : CapInv (reDo s) := by
  by_cases hc : (s.snapshotLength : Int) - 1 ≤ s.snapshotCursor
  · rw [reDo, if_pos hc]
    exact h
  · rw [reDo, if_neg hc]
    cases hget : s.db.get? (s.snapshotCursor + 1).toNat with
    | none =>
      simp only [hget]
      exact h
    | some snap =>
      simp only [hget]
      obtain ⟨h1, h2, h3⟩ := h
      refine ⟨h1, ?_, fun hneg => ?_⟩
      · show s.snapshotCursor + 1 ≤ (snapshotLengthLimit : Int) - 1
        omega
      · exfalso
        have hneg' : s.snapshotCursor + 1 < 0 := hneg
        have hcneg : s.snapshotCursor < 0 := by omega
        rw [(h3 hcneg).1] at hget
        cases hget

theorem capInv_init (s : AppState α) (_h : CapInv s) :
    CapInv (initSnapshotDatabase s) := by
  refine ⟨?_, ?_, fun hneg => ?_⟩
  · show 1 ≤ snapshotLengthLimit
    simp [snapshotLengthLimit]
  · show (0 : Int) ≤ (snapshotLengthLimit : Int) - 1
    show (0 : Int) ≤ ((20 : Nat) : Int) - 1
    omega
  · exfalso
    have hneg' : (0 : Int) < 0 := hneg
    omega

theorem capInv_run (s : AppState α) (h : CapInv s) (ops : List Op) :
    CapInv (run s ops) := by
  induction ops generalizing s with
  | nil => exact h
  | cons op rest ih =>
    cases op with
    | init => exact ih _ (capInv_init s h)
    | record => exact ih _ (capInv_record s h)
    | undo => exact ih _ (capInv_undo s h)
    | redo => exact ih _ (capInv_redo s h)

/-! ## Claims -/

/-- C10: `record` in the uninitialized state (cursor `-1`, length `0`,
empty log) produces exactly the state `init` produces: one appended
record capturing the current slides and slide index, cursor `0`,
length `1`, no deletion and no focus-index patch. -/
theorem record_uninit_equals_init (s : AppState α) (hdb : s.db = [])
    (hc : s.snapshotCursor = -1) (_hl : s.snapshotLength = 0) :
    addSnapshot s = initSnapshotDatabase s :=
  addSnapshot_of_uninit s hdb hc

theorem record_uninit_equals_init_witness :
    (initialState 3 [7, 8] : AppState Nat).db = [] ∧
    (initialState 3 [7, 8] : AppState Nat).snapshotCursor = -1 ∧
    (initialState 3 [7, 8] : AppState Nat).snapshotLength = 0 ∧
    addSnapshot (initialState 3 [7, 8] : AppState Nat) =
      initSnapshotDatabase (initialState 3 [7, 8]) :=
  ⟨rfl, rfl, rfl, record_uninit_equals_init _ rfl rfl rfl⟩

/-- C7: `undo` at cursor `≤ 0` and `redo` at cursor `≥ length - 1` are
complete no-ops: the whole state (cursor, length, log, document content,
slide index, selection) is unchanged, and no error is raised — even with
a failing table backend, since the guards run before any table call. -/
theorem noop_boundaries (f : DbFailure) (s : AppState α) :
    (s.snapshotCursor ≤ 0 → unDo s = s ∧ unDoE f s = .ok s) ∧
    ((s.snapshotLength : Int) - 1 ≤ s.snapshotCursor →
      reDo s = s ∧ reDoE f s = .ok s) := by
  constructor
  · intro h
    constructor
    · simp [unDo, h]
    · simp [unDoE, h]
  · intro h
    constructor
    · simp [reDo, h]
    · simp [reDoE, h]

theorem noop_boundaries_witness :
    (unDo oneRecordState = oneRecordState ∧
      unDoE ⟨true, true, true, true, true⟩ oneRecordState = .ok oneRecordState) ∧
    (reDo oneRecordState = oneRecordState ∧
      reDoE ⟨true, true, true, true, true⟩ oneRecordState = .ok oneRecordState) :=
  ⟨(noop_boundaries ⟨true, true, true, true, true⟩ oneRecordState).1 (by decide),
    (noop_boundaries ⟨true, true, true, true, true⟩ oneRecordState).2 (by decide)⟩

/-- C6: every record restored by `undo` (and symmetrically by `redo`)
sets the current slide index to the minimum of the record's stored focus
index and the number of slides in its content minus one. -/
theorem restore_clamps_focus_index (s : AppState α) (rl rr : DbRecord α) :
    (0 < s.snapshotCursor →
      s.db.get? (s.snapshotCursor - 1).toNat = some rl →
      (unDo s).slideIndex = min rl.index ((rl.slides.length : Int) - 1)) ∧
    (s.snapshotCursor < (s.snapshotLength : Int) - 1 →
      s.db.get? (s.snapshotCursor + 1).toNat = some rr →
      (reDo s).slideIndex = min rr.index ((rr.slides.length : Int) - 1)) := by
  constructor
  · intro h hget
    rw [unDo, if_neg (by omega)]
    simp only [hget]
    rcases le_or_lt rl.index ((rl.slides.length : Int) - 1) with hle | hlt
    · rw [if_neg (not_lt.mpr hle)]
      exact (min_eq_left hle).symm
    · rw [if_pos hlt]
      exact (min_eq_right hlt.le).symm
  · intro h hget
    rw [reDo, if_neg (by omega)]
    simp only [hget]
    rcases le_or_lt rr.index ((rr.slides.length : Int) - 1) with hle | hlt
    · rw [if_neg (not_lt.mpr hle)]
      exact (min_eq_left hle).symm
    · rw [if_pos hlt]
      exact (min_eq_right hlt.le).symm

theorem restore_clamps_focus_index_witness :
    (unDo clampState).slideIndex = 2 ∧ (reDo clampState).slideIndex = 0 := by
  constructor
  · exact (restore_clamps_focus_index clampState ⟨1, 7, [1, 2, 3]⟩
      ⟨3, 0, [9]⟩).1 (by decide) rfl
  · exact (restore_clamps_focus_index clampState ⟨1, 7, [1, 2, 3]⟩
      ⟨3, 0, [9]⟩).2 (by decide) rfl

/-- C1 (failing input): `record` on a full 20-record history (ids `1..20`,
all focus indices `0`, cursor `19`, current slide index `5`) evicts the
oldest record, leaving ids `2..21`; the second-to-newest surviving record
(position 18, id `20`) keeps its stale focus index `0` — it is NOT
patched to the current slide index `5` — while the record at position 17
(id `19`, the third-to-newest) is the one that got patched.  The source
patches `allKeys[snapshotLength - 2]` after decrementing the length for
eviction, an off-by-one against its own doc comment ("update the index of
the second-to-last snapshot"). -/
theorem focus_patch_eviction_bug :
    ((addSnapshot fullHistoryState).db.get? 18).map (fun r => (r.id, r.index)) =
      some (20, 0) ∧
    ((addSnapshot fullHistoryState).db.get? 17).map (fun r => (r.id, r.index)) =
      some (19, 5) ∧
    (addSnapshot fullHistoryState).db.length = 20 ∧
    fullHistoryState.slideIndex = 5 := by
  refine ⟨rfl, rfl, rfl, rfl⟩

/-- C9 (amended): failures of the awaited table calls — the `add` of
`init`, the key listing, `add` and `bulkDelete` of `record`, and the
ordered read of `undo`/`redo` — propagate to the caller, and the
in-memory cursor/length are not advanced.  (The focus-patch field update
is the exception, settled by `update_failure_swallowed`: its promise is
not awaited.) -/
theorem log_failure_propagation (f : DbFailure) (s : AppState α) :
    (f.addFail = true → initSnapshotDatabaseE f s = .error s) ∧
    (f.keysFail = true → addSnapshotE f s = .error s) ∧
    (f.keysFail = false → f.addFail = true → addSnapshotE f s = .error s) ∧
    (f.keysFail = false → f.addFail = false → f.deleteFail = true →
      (addSnapshotE f s).isOk = false ∧
      (exceptState (addSnapshotE f s)).snapshotCursor = s.snapshotCursor ∧
      (exceptState (addSnapshotE f s)).snapshotLength = s.snapshotLength) ∧
    (0 < s.snapshotCursor → f.readFail = true → unDoE f s = .error s) ∧
    (s.snapshotCursor < (s.snapshotLength : Int) - 1 → f.readFail = true →
      reDoE f s = .error s) := by
  refine ⟨?_, ?_, ?_, ?_, ?_, ?_⟩
  · intro h; simp [initSnapshotDatabaseE, h]
  · intro h; simp [addSnapshotE, h]
  · intro h h'; simp [addSnapshotE, h, h']
  · intro h h' h''
    simp [addSnapshotE, h, h', h'', exceptState, Except.isOk, Except.toBool]
  · intro h h'; rw [unDoE, if_neg (by omega), if_pos h']
  · intro h h'; rw [reDoE, if_neg (by omega), if_pos h']

theorem log_failure_propagation_witness :
    initSnapshotDatabaseE ⟨false, true, false, false, false⟩ oneRecordState =
      .error oneRecordState ∧
    addSnapshotE ⟨true, false, false, false, false⟩ oneRecordState =
      .error oneRecordState ∧
    addSnapshotE ⟨false, true, false, false, false⟩ oneRecordState =
      .error oneRecordState ∧
    (addSnapshotE ⟨false, false, false, true, false⟩ oneRecordState).isOk = false ∧
    (exceptState (addSnapshotE ⟨false, false, false, true, false⟩ oneRecordState)).snapshotLength =
      oneRecordState.snapshotLength ∧
    unDoE ⟨false, false, false, false, true⟩ clampState = .error clampState ∧
    reDoE ⟨false, false, false, false, true⟩ clampState = .error clampState :=
  ⟨(log_failure_propagation _ oneRecordState).1 rfl,
    (log_failure_propagation _ oneRecordState).2.1 rfl,
    (log_failure_propagation _ oneRecordState).2.2.1 rfl rfl,
    ((log_failure_propagation _ oneRecordState).2.2.2.1 rfl rfl rfl).1,
    ((log_failure_propagation _ oneRecordState).2.2.2.1 rfl rfl rfl).2.2,
    (log_failure_propagation _ clampState).2.2.2.2.1 (by decide) rfl,
    (log_failure_propagation _ clampState).2.2.2.2.2 (by decide) rfl⟩

/-- C9 (counterexample to the claim as stated): when the focus-patch
field update fails (and nothing else does), the failure does NOT
propagate — `record` on a one-record history still succeeds and advances
the cursor to `1` and the length to `2`, because the source never awaits
the `db.snapshots.update(...)` promise. -/
theorem update_failure_swallowed :
    (addSnapshotE ⟨false, false, true, false, false⟩ oneRecordState).isOk = true ∧
    (exceptState (addSnapshotE ⟨false, false, true, false, false⟩ oneRecordState)).snapshotCursor = 1 ∧
    (exceptState (addSnapshotE ⟨false, false, true, false, false⟩ oneRecordState)).snapshotLength = 2 := by
  refine ⟨rfl, rfl, rfl⟩

/-- C2 (amended): for every finite sequence of history calls from the
uninitialized state in which `init` occurs at most once and only as the
first call (its documented precondition), the in-memory length equals the
number of records retrievable from the log by an ordered scan, and
`0 ≤ cursor ≤ length - 1` (or `cursor = -1` and `length = 0` when `init`
and `record` never ran). -/
theorem history_invariant (i : Int) (sl : List α) (ops : List Op)
    (hops : InitOnlyFirst ops) :
    (run (initialState i sl) ops).snapshotLength =
      (run (initialState i sl) ops).db.length ∧
    (((run (initialState i sl) ops).snapshotCursor = -1 ∧
        (run (initialState i sl) ops).snapshotLength = 0) ∨
      (0 ≤ (run (initialState i sl) ops).snapshotCursor ∧
        (run (initialState i sl) ops).snapshotCursor ≤
          ((run (initialState i sl) ops).snapshotLength : Int) - 1)) := by
  obtain ⟨h1, h2, h3, h4, h5⟩ := goodState_run i sl ops hops
  refine ⟨h3, ?_⟩
  rcases h5 with ⟨hc, hdb⟩ | ⟨hc0, hlt⟩
  · exact Or.inl ⟨hc, by rw [h3, hdb]; rfl⟩
  · refine Or.inr ⟨hc0, ?_⟩
    rw [h3]
    omega

/-- C2 (counterexample to the claim as stated): over ALL call sequences
the invariant fails — calling `init` twice appends a second record but
resets the in-memory length to 1, desynchronizing it from the log. -/
theorem history_invariant_counterexample :
    (run (initialState 0 [0] : AppState Nat) [Op.init, Op.init]).snapshotLength ≠
      (run (initialState 0 [0] : AppState Nat) [Op.init, Op.init]).db.length := by
  decide

theorem history_invariant_witness :
    InitOnlyFirst [Op.init, Op.record, Op.undo, Op.record] ∧
    (run (initialState 0 [0] : AppState Nat)
        [Op.init, Op.record, Op.undo, Op.record]).snapshotLength =
      (run (initialState 0 [0] : AppState Nat)
        [Op.init, Op.record, Op.undo, Op.record]).db.length :=
  ⟨by decide, (history_invariant 0 [0] [Op.init, Op.record, Op.undo, Op.record]
    (by decide)).1⟩

/-- C3: after every `record` call — whatever number and order of
`init`/`record`/`undo`/`redo` calls precede it from the uninitialized
state — the history length is at most 20. -/
theorem record_capacity_bound (i : Int) (sl : List α) (ops : List Op) :
    (addSnapshot (run (initialState i sl) ops)).snapshotLength ≤ 20 := by
  have h := capInv_run (initialState i sl) (capInv_initial i sl) ops
  have hle := newLengthOf_le (run (initialState i sl) ops) h.2.1
    (fun hneg => (h.2.2 hneg).1)
  rw [addSnapshot_length]
  exact hle

/-- C4: branch truncation — when the cursor points strictly before the
last existing key (within a history respecting the invariants), `record`
marks for deletion exactly the keys strictly after the cursor position,
the surviving keys are the prefix up to the cursor plus the new key, the
cursor advances by one, and the length becomes cursor + 2.  In
particular, `[A,B,C,D]` with cursor 1 yields `[A,B,E]`, cursor 2,
length 3. -/
theorem branch_truncation (s : AppState α)
    (hnodup : (dbKeys s.db).Nodup)
    (hfresh : ∀ k ∈ dbKeys s.db, k < s.nextId)
    (hcap : s.db.length ≤ 20)
    (hc0 : 0 ≤ s.snapshotCursor)
    (hlt : s.snapshotCursor < (s.db.length : Int) - 1) :
    needDeleteKeysOf s = (dbKeys s.db).drop (s.snapshotCursor.toNat + 1) ∧
    dbKeys (addSnapshot s).db =
      (dbKeys s.db).take (s.snapshotCursor.toNat + 1) ++ [s.nextId] ∧
    (addSnapshot s).snapshotCursor = s.snapshotCursor + 1 ∧
    (addSnapshot s).snapshotLength = s.snapshotCursor.toNat + 2 := by
  obtain ⟨hnd, hnl, hkeys⟩ := addSnapshot_mid s hnodup hfresh hcap hc0 hlt
  refine ⟨hnd, hkeys, ?_, ?_⟩
  · rw [addSnapshot_cursor, hnl]
    omega
  · rw [addSnapshot_length, hnl]

theorem branch_truncation_witness :
    needDeleteKeysOf abcdState = [3, 4] ∧
    dbKeys (addSnapshot abcdState).db = [1, 2, 5] ∧
    (addSnapshot abcdState).snapshotCursor = 2 ∧
    (addSnapshot abcdState).snapshotLength = 3 := by
  have h := branch_truncation abcdState (by decide) (by decide) (by decide)
    (by decide) (by decide)
  exact ⟨h.1, h.2.1, h.2.2.1, h.2.2.2⟩

/-- C5: capacity eviction — `record` on a log of 20 records with the
cursor at the last position marks exactly the oldest key for deletion;
the result still holds 20 records: the old keys minus the first, plus the
newly appended one. -/
theorem capacity_eviction (s : AppState α)
    (hnodup : (dbKeys s.db).Nodup)
    (hfresh : ∀ k ∈ dbKeys s.db, k < s.nextId)
    (hlen : s.db.length = 20)
    (hc : s.snapshotCursor = 19) :
    needDeleteKeysOf s = [(dbKeys s.db).getD 0 0] ∧
    dbKeys (addSnapshot s).db = (dbKeys s.db).drop 1 ++ [s.nextId] ∧
    (addSnapshot s).db.length = 20 ∧
    (addSnapshot s).snapshotCursor = 19 ∧
    (addSnapshot s).snapshotLength = 20 := by
  have hno : ¬(0 ≤ s.snapshotCursor ∧
      s.snapshotCursor < (s.db.length : Int) - 1) := by
    intro hcon
    obtain ⟨_, hb⟩ := hcon
    rw [hc, hlen] at hb
    omega
  obtain ⟨hnd, hnl, hkeys⟩ := addSnapshot_evict s hnodup hfresh hno
    (by simp only [snapshotLengthLimit]; omega)
  refine ⟨hnd, hkeys, ?_, ?_, ?_⟩
  · rw [← dbKeys_length, hkeys, List.length_append, List.length_drop,
      dbKeys_length, hlen]
    rfl
  · rw [addSnapshot_cursor, hnl, hlen]
    rfl
  · rw [addSnapshot_length, hnl, hlen]

theorem capacity_eviction_witness :
    needDeleteKeysOf fullHistoryState = [1] ∧
    dbKeys (addSnapshot fullHistoryState).db =
      [2, 3, 4, 5, 6, 7, 8, 9, 10, 11, 12, 13, 14, 15, 16, 17, 18, 19, 20, 21] ∧
    (addSnapshot fullHistoryState).db.length = 20 ∧
    (addSnapshot fullHistoryState).snapshotCursor = 19 ∧
    (addSnapshot fullHistoryState).snapshotLength = 20 := by
  have h := capacity_eviction fullHistoryState (by decide) (by decide)
    (by decide) (by decide)
  exact ⟨h.1, h.2.1, h.2.2.1, h.2.2.2.1, h.2.2.2.2⟩

/-- C8: for every state as reached immediately after a `record` call —
cursor at the last position, in-memory length in sync with the log, the
document content equal to the newest snapshot's content, the newest
snapshot's focus index equal to the current slide index (as `record`
captures it), and that index within the deck — `undo` then `redo`
restores every component of the state that held immediately before the
undo: document content, slide index, cursor, log, length and id counter;
the only difference is that each of the two steps clears the
selection-state active-element list (when the history has at least two
records; on a one-record history both steps are complete no-ops). -/
theorem undo_redo_roundtrip (s : AppState α) (r : DbRecord α)
    (hc : s.snapshotCursor = (s.snapshotLength : Int) - 1)
    (hl : s.db.length = s.snapshotLength)
    (hr : s.db.get? (s.snapshotLength - 1) = some r)
    (hs : s.slides = r.slides)
    (hi : s.slideIndex = r.index)
    (hrange : s.slideIndex ≤ (s.slides.length : Int) - 1) :
    (reDo (unDo s)).db = s.db ∧
    (reDo (unDo s)).nextId = s.nextId ∧
    (reDo (unDo s)).snapshotCursor = s.snapshotCursor ∧
    (reDo (unDo s)).snapshotLength = s.snapshotLength ∧
    (reDo (unDo s)).slideIndex = s.slideIndex ∧
    (reDo (unDo s)).slides = s.slides ∧
    (2 ≤ s.snapshotLength →
      (unDo s).activeElementIdList = [] ∧
      (reDo (unDo s)).activeElementIdList = []) ∧
    (s.snapshotLength ≤ 1 → reDo (unDo s) = s) := by
  have hpos : 1 ≤ s.snapshotLength := by
    by_contra hn
    have h0 : s.snapshotLength = 0 := by omega
    rw [h0] at hr hl
    rw [List.length_eq_zero.mp hl] at hr
    cases hr
  by_cases h1 : s.snapshotCursor ≤ 0
  · rw [unDo, if_pos h1, reDo, if_pos (by omega)]
    refine ⟨rfl, rfl, rfl, rfl, rfl, rfl, ?_, fun _ => rfl⟩
    intro h2
    exact absurd h2 (by omega)
  · have hL2 : 2 ≤ s.snapshotLength := by omega
    rw [unDo, if_neg h1]
    cases hget : s.db.get? (s.snapshotCursor - 1).toNat with
    | none =>
      exfalso
      have hidx : (s.snapshotCursor - 1).toNat = s.snapshotLength - 2 := by
        omega
      rw [hidx] at hget
      have := List.get?_eq_none.mp hget
      omega
    | some snap =>
      simp only [hget]
      rw [reDo, if_neg (show ¬((s.snapshotLength : Int) - 1 ≤
        s.snapshotCursor - 1) from by omega)]
      have hidx2 : (s.snapshotCursor - 1 + 1).toNat = s.snapshotLength - 1 := by
        omega
      simp only [hidx2, hr]
      have hlen : s.slides.length = r.slides.length := by rw [hs]
      have hni : ¬(r.index > (r.slides.length : Int) - 1) := by
        rw [← hi, ← hlen]
        omega
      refine ⟨trivial, trivial, ?_, trivial, ?_, hs.symm, ?_, ?_⟩
      · show s.snapshotCursor - 1 + 1 = s.snapshotCursor
        omega
      · show (if r.index > (r.slides.length : Int) - 1 then
            (r.slides.length : Int) - 1 else r.index) = s.slideIndex
        rw [if_neg hni]
        exact hi.symm
      · intro _h2
        exact ⟨trivial, trivial⟩
      · intro habs
        exact absurd hL2 (by omega)

theorem undo_redo_roundtrip_witness :
    (reDo (unDo afterRecordState)).db = afterRecordState.db ∧
    (reDo (unDo afterRecordState)).nextId = afterRecordState.nextId ∧
    (reDo (unDo afterRecordState)).snapshotCursor =
      afterRecordState.snapshotCursor ∧
    (reDo (unDo afterRecordState)).snapshotLength =
      afterRecordState.snapshotLength ∧
    (reDo (unDo afterRecordState)).slideIndex =
      afterRecordState.slideIndex ∧
    (reDo (unDo afterRecordState)).slides = afterRecordState.slides ∧
    (unDo afterRecordState).activeElementIdList = [] ∧
    (reDo (unDo afterRecordState)).activeElementIdList = [] := by
  have h := undo_redo_roundtrip afterRecordState ⟨2, 1, [7, 8]⟩ (by decide)
    (by decide) rfl rfl rfl (by decide)
  exact ⟨h.1, h.2.1, h.2.2.1, h.2.2.2.1, h.2.2.2.2.1, h.2.2.2.2.2.1,
    (h.2.2.2.2.2.2.1 (by decide)).1, (h.2.2.2.2.2.2.1 (by decide)).2⟩

end PPTist
